import Mathlib

/-!
Verification of the QUIC-like wire-framing layer (`src/quinn-proto/src/packet.rs`):
header encoding and decoding, packet-number truncation and expansion, connection
identifiers, payload splitting and the length patch-up, shallowly embedded over
`List Nat` byte buffers (a byte is a `Nat` that is `< 256`; theorems carry that
bound as a hypothesis wherever an input buffer is symbolic).
-/

namespace Quinn

/-- Modelled from the spec: `MAX_CID_SIZE` is a crate-root constant that is not
under `src/`; the spec fixes the connection-identifier capacity at 18 bytes
(the wire nibble convention covers lengths 0 and 4..18). -/
def MAX_CID_SIZE : Nat := 18

/-- Modelled from the spec: `VERSION` is the crate-root negotiated protocol
version constant, not under `src/`; the spec only requires a fixed nonzero
32-bit value, taken here as the draft version identifier `0xff00000b`. -/
def VERSION : Nat := 0xff00000b

/-- `AEAD_TAG_SIZE` from `packet.rs`. -/
def AEAD_TAG_SIZE : Nat := 16

/-- `PacketNumber` from `packet.rs`: a truncated packet number tagged with its
encoded width. The Rust payloads are `u8`/`u16`/`u32`; here they are `Nat`,
with the width bound carried as a hypothesis where it matters. -/
inductive PacketNumber
  | U8 (x : Nat)
  | U16 (x : Nat)
  | U32 (x : Nat)
deriving DecidableEq, Repr

namespace PacketNumber

/-- `PacketNumber::new`. The Rust function panics when the distance fits no
width; that panic is modelled as `none`. The `u64` subtraction
`n - largest_acked` carries the caller precondition `largest_acked ≤ n`. -/
def new (n largest_acked : Nat) : Option PacketNumber :=
  if largest_acked = 0 then some (U32 (n % 2 ^ 32))
  else
    let range := (n - largest_acked) / 2
    if range < 1 <<< 8 then some (U8 (n % 2 ^ 8))
    else if range < 1 <<< 16 then some (U16 (n % 2 ^ 16))
    else if range < 1 <<< 32 then some (U32 (n % 2 ^ 32))
    else none

/-- `PacketNumber::ty`. -/
def ty : PacketNumber → Nat
  | U8 _ => 0x00
  | U16 _ => 0x01
  | U32 _ => 0x02

/-- The tagged width in bits (8, 16 or 32). -/
def width : PacketNumber → Nat
  | U8 _ => 8
  | U16 _ => 16
  | U32 _ => 32

/-- The carried truncated value. -/
def val : PacketNumber → Nat
  | U8 x => x
  | U16 x => x
  | U32 x => x

/-- `PacketNumber::expand`. The `u64` arithmetic is modelled on `Nat`: for the
claims' inputs (62-bit counters) no `u64` wraparound occurs, and the
subtraction `t + d / 2 - x` never truncates in the branch taking it because
every constructor produced by `new` or by decoding carries `x < d`. -/
def expand (pn : PacketNumber) (prev : Nat) : Nat :=
  let t := prev + 1
  let d : Nat :=
    match pn with
    | U8 _ => 1 <<< 8
    | U16 _ => 1 <<< 16
    | U32 _ => 1 <<< 32
  let x :=
    match pn with
    | U8 x => x
    | U16 x => x
    | U32 x => x
  if t > d / 2 then x + d * ((t + d / 2 - x) / d) else x % d

end PacketNumber

/-- Big-endian bytes of a 16-bit write (`BufMut::write::<u16>`). -/
def be16 (n : Nat) : List Nat := [n / 256 % 256, n % 256]

/-- Big-endian bytes of a 32-bit write (`BufMut::write::<u32>`). -/
def be32 (n : Nat) : List Nat :=
  [n / 2 ^ 24 % 256, n / 2 ^ 16 % 256, n / 2 ^ 8 % 256, n % 256]

/-- `ConnectionId` from `packet.rs`: an inline byte vector of length at most
`MAX_CID_SIZE`; equality, ordering and hashing are derived, i.e. by content. -/
structure ConnectionId where
  bytes : List Nat
deriving DecidableEq, Hashable, Repr

/-- `ConnectionId::new`: keep the first `len` bytes of the staging data. -/
def ConnectionId.new (data : List Nat) (len : Nat) : ConnectionId :=
  ⟨data.take len⟩

/-- `ConnectionId::random`: fill `len` bytes from the injected randomness
source, modelled as a byte stream indexed by position. Slicing the 18-byte
staging array with `len > MAX_CID_SIZE` is out of bounds in the source (a
panic even with the `debug_assert` compiled out), modelled as `none`. -/
def ConnectionId.random (rng : Nat → Nat) (len : Nat) : Option ConnectionId :=
  if len ≤ MAX_CID_SIZE then some ⟨(List.range len).map rng⟩ else none

/-- One lowercase hex digit as produced by the `x` format (`0`–`9`, `a`–`f`). -/
def hexDigit (n : Nat) : Char :=
  if n < 10 then Char.ofNat (48 + n) else Char.ofNat (87 + n)

/-- The two lowercase hex digits the `02x` format writes for one byte. -/
def byteHex (b : Nat) : List Char := [hexDigit (b / 16), hexDigit (b % 16)]

/-- The `fmt::Display` output for a `ConnectionId`: every content byte as two
lowercase hex digits, in order, with no separators. -/
def ConnectionId.display (c : ConnectionId) : List Char :=
  c.bytes.foldr (fun b acc => byteHex b ++ acc) []

/-- `Header` from `packet.rs`. -/
inductive Header
  | Long (ty : Nat) (source_id : ConnectionId) (destination_id : ConnectionId)
      (number : Nat)
  | Short (id : ConnectionId) (number : PacketNumber) (key_phase : Bool)
  | VersionNegotiate (ty : Nat) (source_id : ConnectionId)
      (destination_id : ConnectionId)
deriving DecidableEq, Repr

/-- `KEY_PHASE_BIT` from `packet.rs`. -/
def KEY_PHASE_BIT : Nat := 0x40

/-- The connection-id length nibble computed by `Header::encode`: `len as u8`
followed by a conditional subtraction of 3. The subtraction is a wrapping
`u8` subtraction, written `(len + 253) % 256`; for the lengths the nibble
convention produces (0 and 4..18) it is plain `len - 3`. -/
def cidLenNibble (l : Nat) : Nat := if 0 < l then (l + 253) % 256 else 0

/-- The byte `dcil << 4 | scil` written by `Header::encode` (`u8` shift,
hence the `% 256`). -/
def cidNibbleByte (dl sl : Nat) : Nat :=
  (cidLenNibble dl <<< 4) % 256 ||| cidLenNibble sl

/-- `PacketNumber::encode`: the raw value in exactly the tagged width. -/
def PacketNumber.encodeBytes : PacketNumber → List Nat
  | .U8 x => [x % 256]
  | .U16 x => be16 x
  | .U32 x => be32 x

/-- `Header::encode`. The long-header length field is written as the two-byte
placeholder `0u16` (see `set_payload_length`). -/
def Header.encode : Header → List Nat
  | .Long ty source_id destination_id number =>
    (128 ||| ty) :: (be32 VERSION ++
      cidNibbleByte destination_id.bytes.length source_id.bytes.length ::
      (destination_id.bytes ++ (source_id.bytes ++ ([0, 0] ++ be32 number))))
  | .Short id number key_phase =>
    (number.ty ||| 0x30 ||| if key_phase then KEY_PHASE_BIT else 0) ::
      (id.bytes ++ number.encodeBytes)
  | .VersionNegotiate ty source_id destination_id =>
    (128 ||| ty) :: (be32 0 ++
      cidNibbleByte destination_id.bytes.length source_id.bytes.length ::
      (destination_id.bytes ++ source_id.bytes))

/-- Read one byte from the buffer (`Buf::get::<u8>`). -/
def readByte : List Nat → Option (Nat × List Nat)
  | [] => none
  | b :: r => some (b, r)

/-- Read a big-endian `u16` (`Buf::get::<u16>`). -/
def readU16 : List Nat → Option (Nat × List Nat)
  | b1 :: b0 :: r => some (b1 * 256 + b0, r)
  | _ => none

/-- Read a big-endian `u32` (`Buf::get::<u32>`). -/
def readU32 : List Nat → Option (Nat × List Nat)
  | b3 :: b2 :: b1 :: b0 :: r =>
      some (((b3 * 256 + b2) * 256 + b1) * 256 + b0, r)
  | _ => none

/-- Modelled from the spec: the variable-length-integer read
(`coding::BufExt::get_var`) is an external coding utility that is not under
`src/`. Per the spec, the top two bits of the first byte select the length
class (0 → 1, 1 → 2, 2 → 4, 3 → 8 bytes; the 2-byte class tag is `0b01`) and
the value is the remaining six bits followed by the further bytes,
big-endian. -/
def getVar : List Nat → Option (Nat × List Nat)
  | [] => none
  | b :: r =>
    match b / 64, r with
    | 0, r => some (b % 64, r)
    | 1, b0 :: r => some ((b % 64) * 256 + b0, r)
    | 2, b2 :: b1 :: b0 :: r =>
        some ((((b % 64) * 256 + b2) * 256 + b1) * 256 + b0, r)
    | 3, b6 :: b5 :: b4 :: b3 :: b2 :: b1 :: b0 :: r =>
        some ((((((((b % 64) * 256 + b6) * 256 + b5) * 256 + b4) * 256 + b3)
          * 256 + b2) * 256 + b1) * 256 + b0, r)
    | _, _ => none

/-- `Packet` from `packet.rs`. -/
structure Packet where
  header : Header
  header_data : List Nat
  payload : List Nat
deriving DecidableEq, Repr

/-- `HeaderError` from `packet.rs`. -/
inductive HeaderError
  | UnsupportedVersion (source : ConnectionId) (destination : ConnectionId)
  | InvalidHeader (reason : String)
deriving DecidableEq, Repr

/-- Outcome of `Packet::decode`; `panic` marks the out-of-bounds slice access
the short-header path performs when `dest_id_len > MAX_CID_SIZE`. -/
inductive DecodeResult
  | panic
  | err (e : HeaderError)
  | ok (p : Packet) (rest : List Nat)
deriving DecidableEq, Repr

/-- The common tail of `Packet::decode`: split the datagram into the header
bytes (`split_to(header_len).freeze()`), the payload (`split_to(payload_len)`)
and the remainder. -/
def finishDecode (packet : List Nat) (header_len payload_len : Nat)
    (header : Header) : DecodeResult :=
  .ok ⟨header, packet.take header_len, (packet.drop header_len).take payload_len⟩
    (packet.drop (header_len + payload_len))

/-- The long-header branch of `Packet::decode`. `packet` is the whole datagram
(used for the `buf.position()`-style length computations); `ty` is the first
byte with its top bit cleared; `r1` holds the bytes after the first one. -/
def decodeLong (packet : List Nat) (ty : Nat) (r1 : List Nat) : DecodeResult :=
  match readU32 r1 with
  | none => .err (.InvalidHeader "unexpected end of packet")
  | some (version, r2) =>
    match readByte r2 with
    | none => .err (.InvalidHeader "unexpected end of packet")
    | some (ci_lengths, r3) =>
      let dcil := if 0 < ci_lengths / 16 then ci_lengths / 16 + 3
        else ci_lengths / 16
      let scil := if 0 < ci_lengths % 16 then ci_lengths % 16 + 3
        else ci_lengths % 16
      if r3.length < dcil + scil then
        .err (.InvalidHeader "connection IDs longer than packet")
      else
        let destination_id : ConnectionId := ⟨r3.take dcil⟩
        let r4 := r3.drop dcil
        let source_id : ConnectionId := ⟨r4.take scil⟩
        let r5 := r4.drop scil
        if version = 0 then
          let header_len := packet.length - r5.length
          finishDecode packet header_len (packet.length - header_len)
            (.VersionNegotiate ty source_id destination_id)
        else if version = VERSION then
          match getVar r5 with
          | none => .err (.InvalidHeader "unexpected end of packet")
          | some (len, r6) =>
            match readU32 r6 with
            | none => .err (.InvalidHeader "unexpected end of packet")
            | some (number, r7) =>
              let header_len := packet.length - r7.length
              if packet.length < header_len + len then
                .err (.InvalidHeader "payload longer than packet")
              else
                finishDecode packet header_len len
                  (.Long ty source_id destination_id number)
        else .err (.UnsupportedVersion source_id destination_id)

/-- The short-header branch of `Packet::decode`. Copying into the fixed
18-byte `cid_stage` array is out of bounds when `dest_id_len > MAX_CID_SIZE`
(modelled as `panic`); the check against the remaining bytes happens first. -/
def decodeShort (packet : List Nat) (ty : Nat) (r1 : List Nat)
    (dest_id_len : Nat) : DecodeResult :=
  if r1.length < dest_id_len then
    .err (.InvalidHeader "destination connection ID longer than packet")
  else if MAX_CID_SIZE < dest_id_len then .panic
  else
    let id : ConnectionId := ⟨r1.take dest_id_len⟩
    let r2 := r1.drop dest_id_len
    -- `ty & KEY_PHASE_BIT != 0`, with `ty` already masked below `2^7`
    let key_phase := decide (KEY_PHASE_BIT ≤ ty)
    match ty % 4 with
    | 0 =>
      match readByte r2 with
      | none => .err (.InvalidHeader "unexpected end of packet")
      | some (x, r3) =>
        let header_len := packet.length - r3.length
        finishDecode packet header_len (packet.length - header_len)
          (.Short id (.U8 x) key_phase)
    | 1 =>
      match readU16 r2 with
      | none => .err (.InvalidHeader "unexpected end of packet")
      | some (x, r3) =>
        let header_len := packet.length - r3.length
        finishDecode packet header_len (packet.length - header_len)
          (.Short id (.U16 x) key_phase)
    | 2 =>
      match readU32 r2 with
      | none => .err (.InvalidHeader "unexpected end of packet")
      | some (x, r3) =>
        let header_len := packet.length - r3.length
        finishDecode packet header_len (packet.length - header_len)
          (.Short id (.U32 x) key_phase)
    | _ => .err (.InvalidHeader "unknown packet type")

/-- `Packet::decode`. The top-bit test `ty & 0x80 != 0` is `128 ≤ first` and
the mask `ty & !0x80` is `first % 128`, both exact for bytes `< 256`. -/
def Packet.decode (packet : List Nat) (dest_id_len : Nat) : DecodeResult :=
  match readByte packet with
  | none => .err (.InvalidHeader "unexpected end of packet")
  | some (first, r1) =>
    if 128 ≤ first then decodeLong packet (first % 128) r1
    else decodeShort packet (first % 128) r1 dest_id_len

/-- `set_payload_length` from `packet.rs`: patch the two placeholder bytes
that sit six bytes before the end of the header region with the sealed length
tagged as a 2-byte varint. The `assert!` failure (sealed length at or above
`2^14`) and the out-of-range slice accesses (`header_len < 6` or
`header_len > packet.len()`, both fatal in the source) are modelled as
`none`. -/
def set_payload_length (packet : List Nat) (header_len : Nat) :
    Option (List Nat) :=
  if 6 ≤ header_len ∧ header_len ≤ packet.length then
    let len := packet.length - header_len + AEAD_TAG_SIZE
    if len < 2 ^ 14 then
      let v := len ||| (1 <<< 14)
      some ((packet.set (header_len - 6) (v / 256)).set (header_len - 5)
        (v % 256))
    else none
  else none

/-- **C3.** `PacketNumber::new` returns the 32-bit encoding whenever
`largest_acked = 0`; otherwise, with `range = (n - largest_acked) / 2`, it
returns the 8-bit encoding iff `range < 2^8`, the 16-bit iff
`2^8 ≤ range < 2^16`, the 32-bit iff `2^16 ≤ range < 2^32`, and fails fatally
(modelled as `none`) iff `2^32 ≤ range`; every width it returns is the
narrowest of 8/16/32 whose span covers `range`, and the carried value is `n`
truncated to that width. -/
theorem packetNumber_new_width_rule (n la : Nat) (h : la ≤ n) :
    (la = 0 → PacketNumber.new n la = some (PacketNumber.U32 (n % 2 ^ 32))) ∧
    (la ≠ 0 →
      ((PacketNumber.new n la = none ↔ 2 ^ 32 ≤ (n - la) / 2) ∧
       ∀ pn, PacketNumber.new n la = some pn →
         pn.val = n % 2 ^ pn.width ∧
         (n - la) / 2 < 2 ^ pn.width ∧
         ∀ w, (w = 8 ∨ w = 16 ∨ w = 32) → (n - la) / 2 < 2 ^ w → pn.width ≤ w)) := by
  have e8 : (1 <<< 8 : Nat) = 2 ^ 8 := by norm_num [Nat.shiftLeft_eq]
  have e16 : (1 <<< 16 : Nat) = 2 ^ 16 := by norm_num [Nat.shiftLeft_eq]
  have e32 : (1 <<< 32 : Nat) = 2 ^ 32 := by norm_num [Nat.shiftLeft_eq]
  constructor
  · intro h0
    simp [PacketNumber.new, h0]
  · intro hla
    simp only [PacketNumber.new, if_neg hla, e8, e16, e32]
    by_cases h8 : (n - la) / 2 < 2 ^ 8
    · rw [if_pos h8]
      refine ⟨by simp; exact h8.trans_le (by norm_num), ?_⟩
      rintro pn hpn
      cases Option.some.injEq .. ▸ hpn
      refine ⟨rfl, ?_, ?_⟩
      · simpa [PacketNumber.width] using h8
      · rintro w (rfl | rfl | rfl) _ <;> simp [PacketNumber.width]
    · rw [if_neg h8]
      by_cases h16 : (n - la) / 2 < 2 ^ 16
      · rw [if_pos h16]
        refine ⟨by simp; exact h16.trans_le (by norm_num), ?_⟩
        rintro pn hpn
        cases Option.some.injEq .. ▸ hpn
        refine ⟨rfl, ?_, ?_⟩
        · simpa [PacketNumber.width] using h16
        · rintro w (rfl | rfl | rfl) hw <;> simp [PacketNumber.width] <;> omega
      · rw [if_neg h16]
        by_cases h32 : (n - la) / 2 < 2 ^ 32
        · rw [if_pos h32]
          refine ⟨by simp; exact h32.trans_le (by norm_num), ?_⟩
          rintro pn hpn
          cases Option.some.injEq .. ▸ hpn
          refine ⟨rfl, ?_, ?_⟩
          · simpa [PacketNumber.width] using h32
          · rintro w (rfl | rfl | rfl) hw <;> simp [PacketNumber.width] <;> omega
        · rw [if_neg h32]
          refine ⟨by simpa using h32, ?_⟩
          rintro pn hpn
          exact absurd hpn (by simp)

/-- Witness for C3 at `n = 300`, `largest_acked = 10`. -/
theorem packetNumber_new_width_rule_witness :
    (10 : Nat) ≤ 300 ∧
    ((10 : Nat) ≠ 0 →
      ((PacketNumber.new 300 10 = none ↔ 2 ^ 32 ≤ (300 - 10) / 2) ∧
       ∀ pn, PacketNumber.new 300 10 = some pn →
         pn.val = 300 % 2 ^ pn.width ∧
         (300 - 10) / 2 < 2 ^ pn.width ∧
         ∀ w, (w = 8 ∨ w = 16 ∨ w = 32) → (300 - 10) / 2 < 2 ^ w → pn.width ≤ w)) :=
  ⟨by norm_num, (packetNumber_new_width_rule 300 10 (by norm_num)).2⟩

/-- **C2.** The packet-number round trip fails inside a realistic window: with
`largest_acked = 10` and `n = 300` (290 packets in flight), `new` picks the
8-bit encoding (`range = 145 < 2^8`) and `expand` reconstructs 44, not 300.
The `/ 2` in `new` makes the admitted 8-bit window four times wider than
`expand` can reconstruct. -/
theorem packetNumber_expand_mismatch :
    PacketNumber.new 300 10 = some (PacketNumber.U8 44) ∧
    PacketNumber.expand (PacketNumber.U8 44) 10 = 44 ∧
    PacketNumber.expand (PacketNumber.U8 44) 10 ≠ 300 := by decide

/-- **C4 (counterexample).** The long-header length placeholder is written as
the plain two-byte value 0: its first byte is `0x00`, whose top two bits are
`0b00` (the 1-byte varint class), not the claimed 2-byte class tag `0b01`. -/
theorem encode_long_placeholder_untagged :
    (Header.encode (.Long 127 ⟨[]⟩ ⟨[]⟩ 0)).getD 6 0 = 0 ∧
    (Header.encode (.Long 127 ⟨[]⟩ ⟨[]⟩ 0)).getD 6 0 / 64 ≠ 1 := by decide

/-- **C4 (amended).** When `Header::encode` encodes a Long header it writes,
immediately after the connection ids, a two-byte length placeholder holding
the plain value 0 — without the variable-length-integer 2-byte-class tag bits,
which are only applied later by `set_payload_length` — followed by the 4-byte
big-endian packet number, a fixed 6-byte region reserved for later patching. -/
theorem encode_long_placeholder (ty : Nat) (sid did : ConnectionId)
    (number : Nat) :
    (Header.encode (.Long ty sid did number)).length
        = 12 + did.bytes.length + sid.bytes.length ∧
    (Header.encode (.Long ty sid did number)).drop
        (6 + did.bytes.length + sid.bytes.length) = 0 :: 0 :: be32 number := by
  constructor
  · simp [Header.encode, be32]
    omega
  · have hsplit : Header.encode (.Long ty sid did number) =
        ((128 ||| ty) :: (be32 VERSION ++
          cidNibbleByte did.bytes.length sid.bytes.length ::
          (did.bytes ++ sid.bytes))) ++ (0 :: 0 :: be32 number) := by
      simp [Header.encode, List.cons_append, List.append_assoc]
    rw [hsplit]
    refine List.drop_left' ?_
    simp [be32]
    omega

/-- Witness for C4 at a concrete Long header. -/
theorem encode_long_placeholder_witness :
    (Header.encode (.Long 5 ⟨[1, 2, 3, 4]⟩ ⟨[9, 9, 9, 9]⟩ 77)).length = 20 ∧
    (Header.encode (.Long 5 ⟨[1, 2, 3, 4]⟩ ⟨[9, 9, 9, 9]⟩ 77)).drop 14 =
      0 :: 0 :: be32 77 :=
  encode_long_placeholder 5 ⟨[1, 2, 3, 4]⟩ ⟨[9, 9, 9, 9]⟩ 77

/-- **C6.** With `6 ≤ header_len ≤ packet.length`, `set_payload_length`
computes `len = packet.length - header_len + 16`; when `len < 2^14` it
overwrites exactly the two bytes at positions `header_len - 6` and
`header_len - 5` (six bytes before the end of the header region) with the
big-endian value `len ||| 0x4000`, leaving the buffer length and every other
byte unchanged; when `len ≥ 2^14` the `assert!` fails fatally (`none`). -/
theorem set_payload_length_spec (packet : List Nat) (header_len : Nat)
    (h6 : 6 ≤ header_len) (hle : header_len ≤ packet.length) :
    (packet.length - header_len + AEAD_TAG_SIZE < 2 ^ 14 →
      ∃ out, set_payload_length packet header_len = some out ∧
        out.length = packet.length ∧
        out.getD (header_len - 6) 0 =
          ((packet.length - header_len + AEAD_TAG_SIZE) ||| (1 <<< 14)) / 256 ∧
        out.getD (header_len - 5) 0 =
          ((packet.length - header_len + AEAD_TAG_SIZE) ||| (1 <<< 14)) % 256 ∧
        ∀ i, i ≠ header_len - 6 → i ≠ header_len - 5 →
          out.getD i 0 = packet.getD i 0) ∧
    (2 ^ 14 ≤ packet.length - header_len + AEAD_TAG_SIZE →
      set_payload_length packet header_len = none) := by
  have hne : header_len - 6 ≠ header_len - 5 := by omega
  have h5lt : header_len - 5 < packet.length := by omega
  have h6lt : header_len - 6 < packet.length := by omega
  constructor
  · intro hlen
    refine ⟨_, by rw [set_payload_length, if_pos ⟨h6, hle⟩, if_pos hlen], ?_, ?_, ?_, ?_⟩
    · simp
    · rw [List.getD_eq_getElem?_getD, List.getElem?_set_ne (by omega),
        List.getElem?_set_eq_of_lt _ h6lt]
      rfl
    · rw [List.getD_eq_getElem?_getD,
        List.getElem?_set_eq_of_lt _ (by simpa using h5lt)]
      rfl
    · intro i hi6 hi5
      rw [List.getD_eq_getElem?_getD, List.getElem?_set_ne (by omega),
        List.getElem?_set_ne (by omega), List.getD_eq_getElem?_getD]
  · intro hlen
    rw [set_payload_length, if_pos ⟨h6, hle⟩, if_neg (by omega)]

/-- Witness for C6: a 10-byte sealed buffer with a 6-byte header region. -/
theorem set_payload_length_spec_witness :
    (6 : Nat) ≤ 6 ∧ (6 : Nat) ≤ (List.replicate 10 7).length ∧
    ((List.replicate 10 7).length - 6 + AEAD_TAG_SIZE < 2 ^ 14 →
      ∃ out, set_payload_length (List.replicate 10 7) 6 = some out ∧
        out.length = (List.replicate 10 7).length ∧
        out.getD 0 0 = (((List.replicate 10 7).length - 6 + AEAD_TAG_SIZE) |||
          (1 <<< 14)) / 256 ∧
        out.getD 1 0 = (((List.replicate 10 7).length - 6 + AEAD_TAG_SIZE) |||
          (1 <<< 14)) % 256 ∧
        ∀ i, i ≠ 0 → i ≠ 1 → out.getD i 0 = (List.replicate 10 7).getD i 0) :=
  ⟨by norm_num, by simp,
    (set_payload_length_spec (List.replicate 10 7) 6 (by norm_num) (by simp)).1⟩

/-- When the header consumed the whole datagram, `finishDecode` returns it all
as header bytes with an empty payload and remainder. -/
lemma finishDecode_all (packet : List Nat) (hl : Nat) (h : Header)
    (hhl : hl = packet.length) :
    finishDecode packet hl (packet.length - hl) h = .ok ⟨h, packet, []⟩ [] := by
  subst hhl
  simp [finishDecode]

/-- `128 | ty` is `128 + ty` for a 7-bit `ty`. -/
lemma lor128 (t : Nat) (h : t < 128) : 128 ||| t = 128 + t := by
  have hall : ∀ u : Fin 128, 128 ||| (u : Nat) = 128 + u := by decide
  exact hall ⟨t, h⟩

/-- The connection-id length byte splits back into its two nibbles. -/
lemma nibble_byte_eq (n m : Nat) (hn : n < 16) (hm : m < 16) :
    ((n <<< 4) % 256) ||| m = 16 * n + m := by
  have hall : ∀ a b : Fin 16, (((a : Nat) <<< 4) % 256) ||| (b : Nat)
      = 16 * a + b := by decide
  exact hall ⟨n, hn⟩ ⟨m, hm⟩

/-- `readU32` undoes `be32` for 32-bit values. -/
lemma readU32_be32 (x : Nat) (hx : x < 2 ^ 32) (r : List Nat) :
    readU32 (be32 x ++ r) = some (x, r) := by
  simp only [be32, List.cons_append, List.nil_append, readU32,
    Option.some.injEq, Prod.mk.injEq]
  norm_num at hx ⊢
  omega

/-- `readU16` undoes `be16` for 16-bit values. -/
lemma readU16_be16 (x : Nat) (hx : x < 2 ^ 16) (r : List Nat) :
    readU16 (be16 x ++ r) = some (x, r) := by
  simp only [be16, List.cons_append, List.nil_append, readU16,
    Option.some.injEq, Prod.mk.injEq]
  norm_num at hx ⊢
  omega

/-- Unfold `Packet::decode` on a long-form first byte. -/
lemma decode_cons_long (first : Nat) (r : List Nat) (dlen : Nat)
    (h : 128 ≤ first) :
    Packet.decode (first :: r) dlen = decodeLong (first :: r) (first % 128) r := by
  simp only [Packet.decode, readByte]
  rw [if_pos h]

/-- Unfold `Packet::decode` on a short-form first byte. -/
lemma decode_cons_short (first : Nat) (r : List Nat) (dlen : Nat)
    (h : ¬ 128 ≤ first) :
    Packet.decode (first :: r) dlen
      = decodeShort (first :: r) (first % 128) r dlen := by
  simp only [Packet.decode, readByte]
  rw [if_neg h]

/-- `decodeShort` on a well-formed 1-byte-number short header body. -/
lemma decodeShort_u8 (packet : List Nat) (ty : Nat) (idb : List Nat) (x : Nat)
    (hty : ty % 4 = 0) (hle : idb.length ≤ MAX_CID_SIZE) :
    decodeShort packet ty (idb ++ [x]) idb.length =
      .ok ⟨.Short ⟨idb⟩ (.U8 x) (decide (KEY_PHASE_BIT ≤ ty)), packet, []⟩ [] := by
  simp only [decodeShort]
  rw [if_neg (by simp), if_neg (Nat.not_lt.2 hle), List.take_left,
    List.drop_left, hty]
  simp only [readByte]
  exact finishDecode_all _ _ _ (by simp)

/-- `decodeShort` on a well-formed 2-byte-number short header body. -/
lemma decodeShort_u16 (packet : List Nat) (ty : Nat) (idb : List Nat) (x : Nat)
    (hty : ty % 4 = 1) (hle : idb.length ≤ MAX_CID_SIZE) (hx : x < 2 ^ 16) :
    decodeShort packet ty (idb ++ be16 x) idb.length =
      .ok ⟨.Short ⟨idb⟩ (.U16 x) (decide (KEY_PHASE_BIT ≤ ty)), packet, []⟩ [] := by
  simp only [decodeShort]
  rw [if_neg (by simp), if_neg (Nat.not_lt.2 hle), List.take_left,
    List.drop_left, hty]
  have := readU16_be16 x hx []
  rw [List.append_nil] at this
  simp only [this]
  exact finishDecode_all _ _ _ (by simp)

/-- `decodeShort` on a well-formed 4-byte-number short header body. -/
lemma decodeShort_u32 (packet : List Nat) (ty : Nat) (idb : List Nat) (x : Nat)
    (hty : ty % 4 = 2) (hle : idb.length ≤ MAX_CID_SIZE) (hx : x < 2 ^ 32) :
    decodeShort packet ty (idb ++ be32 x) idb.length =
      .ok ⟨.Short ⟨idb⟩ (.U32 x) (decide (KEY_PHASE_BIT ≤ ty)), packet, []⟩ [] := by
  simp only [decodeShort]
  rw [if_neg (by simp), if_neg (Nat.not_lt.2 hle), List.take_left,
    List.drop_left, hty]
  have := readU32_be32 x hx []
  rw [List.append_nil] at this
  simp only [this]
  exact finishDecode_all _ _ _ (by simp)

/-- The Short-header round trip, for any identifier of length at most
`MAX_CID_SIZE` supplied back as `dest_id_len`. -/
lemma short_roundtrip (id : ConnectionId) (pn : PacketNumber) (kp : Bool)
    (hle : id.bytes.length ≤ MAX_CID_SIZE) (hval : pn.val < 2 ^ pn.width) :
    Packet.decode (Header.encode (.Short id pn kp)) id.bytes.length =
      .ok ⟨.Short id pn kp, Header.encode (.Short id pn kp), []⟩ [] := by
  obtain ⟨idb⟩ := id
  cases pn with
  | U8 x =>
    simp only [PacketNumber.val, PacketNumber.width] at hval
    norm_num at hval
    have hx : x % 256 = x := Nat.mod_eq_of_lt hval
    cases kp with
    | false =>
      simp only [Header.encode, PacketNumber.ty, PacketNumber.encodeBytes,
        KEY_PHASE_BIT, Bool.false_eq_true, if_false, hx]
      rw [show (0 ||| 48 ||| 0 : Nat) = 48 by decide,
        decode_cons_short _ _ _ (by norm_num),
        show (48 : Nat) % 128 = 48 by norm_num,
        decodeShort_u8 _ _ _ _ (by norm_num) hle]
      rfl
    | true =>
      simp only [Header.encode, PacketNumber.ty, PacketNumber.encodeBytes,
        KEY_PHASE_BIT, if_true, hx]
      rw [show (0 ||| 48 ||| 64 : Nat) = 112 by decide,
        decode_cons_short _ _ _ (by norm_num),
        show (112 : Nat) % 128 = 112 by norm_num,
        decodeShort_u8 _ _ _ _ (by norm_num) hle]
      rfl
  | U16 x =>
    simp only [PacketNumber.val, PacketNumber.width] at hval
    cases kp with
    | false =>
      simp only [Header.encode, PacketNumber.ty, PacketNumber.encodeBytes,
        KEY_PHASE_BIT, Bool.false_eq_true, if_false]
      rw [show (1 ||| 48 ||| 0 : Nat) = 49 by decide,
        decode_cons_short _ _ _ (by norm_num),
        show (49 : Nat) % 128 = 49 by norm_num,
        decodeShort_u16 _ _ _ _ (by norm_num) hle hval]
      rfl
    | true =>
      simp only [Header.encode, PacketNumber.ty, PacketNumber.encodeBytes,
        KEY_PHASE_BIT, if_true]
      rw [show (1 ||| 48 ||| 64 : Nat) = 113 by decide,
        decode_cons_short _ _ _ (by norm_num),
        show (113 : Nat) % 128 = 113 by norm_num,
        decodeShort_u16 _ _ _ _ (by norm_num) hle hval]
      rfl
  | U32 x =>
    simp only [PacketNumber.val, PacketNumber.width] at hval
    cases kp with
    | false =>
      simp only [Header.encode, PacketNumber.ty, PacketNumber.encodeBytes,
        KEY_PHASE_BIT, Bool.false_eq_true, if_false]
      rw [show (2 ||| 48 ||| 0 : Nat) = 50 by decide,
        decode_cons_short _ _ _ (by norm_num),
        show (50 : Nat) % 128 = 50 by norm_num,
        decodeShort_u32 _ _ _ _ (by norm_num) hle hval]
      rfl
    | true =>
      simp only [Header.encode, PacketNumber.ty, PacketNumber.encodeBytes,
        KEY_PHASE_BIT, if_true]
      rw [show (2 ||| 48 ||| 64 : Nat) = 114 by decide,
        decode_cons_short _ _ _ (by norm_num),
        show (114 : Nat) % 128 = 114 by norm_num,
        decodeShort_u32 _ _ _ _ (by norm_num) hle hval]
      rfl

/-- The connection-id length nibble stays below 16 for wire lengths. -/
lemma cidLenNibble_lt (l : Nat) (h : l = 0 ∨ l = 4 ∨ l = 18) :
    cidLenNibble l < 16 := by
  rcases h with rfl | rfl | rfl <;> decide

/-- The decoder's nibble adjustment undoes the encoder's, for wire lengths. -/
lemma cidLenNibble_inv (l : Nat) (h : l = 0 ∨ l = 4 ∨ l = 18) :
    (if 0 < cidLenNibble l then cidLenNibble l + 3 else cidLenNibble l) = l := by
  rcases h with rfl | rfl | rfl <;> decide

/-- `decodeLong` once the version, the nibble byte and both connection ids
have the shape the wire demands: the three version branches with the ids
parsed off. -/
lemma decodeLong_skeleton (packet : List Nat) (ty v nibD nibS : Nat)
    (did sid tail : List Nat) (hv : v < 2 ^ 32) (hnD : nibD < 16)
    (hnS : nibS < 16)
    (hdid : did.length = if 0 < nibD then nibD + 3 else nibD)
    (hsid : sid.length = if 0 < nibS then nibS + 3 else nibS) :
    decodeLong packet ty
        (be32 v ++ (16 * nibD + nibS) :: (did ++ (sid ++ tail))) =
      if v = 0 then
        finishDecode packet (packet.length - tail.length)
          (packet.length - (packet.length - tail.length))
          (.VersionNegotiate ty ⟨sid⟩ ⟨did⟩)
      else if v = VERSION then
        match getVar tail with
        | none => .err (.InvalidHeader "unexpected end of packet")
        | some (len, r6) =>
          match readU32 r6 with
          | none => .err (.InvalidHeader "unexpected end of packet")
          | some (number, r7) =>
            if packet.length < packet.length - r7.length + len then
              .err (.InvalidHeader "payload longer than packet")
            else
              finishDecode packet (packet.length - r7.length) len
                (.Long ty ⟨sid⟩ ⟨did⟩ number)
      else .err (.UnsupportedVersion ⟨sid⟩ ⟨did⟩) := by
  simp only [decodeLong]
  rw [readU32_be32 v hv]
  simp only [readByte]
  rw [show (16 * nibD + nibS) / 16 = nibD from by omega,
    show (16 * nibD + nibS) % 16 = nibS from by omega,
    ← hdid, ← hsid]
  rw [if_neg (by simp), List.take_left, List.drop_left,
    List.take_left, List.drop_left]

/-- The VersionNegotiate round trip for 7-bit `ty` and identifier lengths in
the nibble-convention set. -/
lemma vn_roundtrip (ty : Nat) (sid did : ConnectionId) (hty : ty < 128)
    (hsl : sid.bytes.length = 0 ∨ sid.bytes.length = 4 ∨ sid.bytes.length = 18)
    (hdl : did.bytes.length = 0 ∨ did.bytes.length = 4 ∨ did.bytes.length = 18)
    (dlen : Nat) :
    Packet.decode (Header.encode (.VersionNegotiate ty sid did)) dlen =
      .ok ⟨.VersionNegotiate ty sid did,
        Header.encode (.VersionNegotiate ty sid did), []⟩ [] := by
  obtain ⟨sidb⟩ := sid
  obtain ⟨didb⟩ := did
  simp only at hsl hdl
  simp only [Header.encode, cidNibbleByte]
  rw [lor128 ty hty, decode_cons_long _ _ _ (by omega),
    show (128 + ty) % 128 = ty from by omega,
    nibble_byte_eq _ _ (cidLenNibble_lt _ hdl) (cidLenNibble_lt _ hsl),
    show didb ++ sidb = didb ++ (sidb ++ []) from by simp]
  rw [decodeLong_skeleton _ _ _ _ _ _ _ _ (by norm_num)
    (cidLenNibble_lt _ hdl) (cidLenNibble_lt _ hsl)
    (cidLenNibble_inv _ hdl).symm (cidLenNibble_inv _ hsl).symm]
  rw [if_pos rfl]
  exact finishDecode_all _ _ _ (by simp)

/-- **C1 (counterexample).** A Long header with packet number 1 does not
round-trip through `Header::encode` and `Packet::decode`: the unpatched
length placeholder `0x0000` parses as a 1-byte varint of value 0, so the
decoder mis-aligns and reads back packet number 0, with one byte left over. -/
theorem decode_encode_long_mismatch :
    Packet.decode (Header.encode (.Long 127 ⟨[]⟩ ⟨[]⟩ 1)) 0 =
      .ok ⟨.Long 127 ⟨[]⟩ ⟨[]⟩ 0,
        (Header.encode (.Long 127 ⟨[]⟩ ⟨[]⟩ 1)).take 11, []⟩ [1] ∧
    Header.Long 127 ⟨[]⟩ ⟨[]⟩ 0 ≠ Header.Long 127 ⟨[]⟩ ⟨[]⟩ 1 := by decide

/-- **C1 (amended).** Short and VersionNegotiate headers — with 7-bit type
values, identifier lengths in 0, 4, 18, and field values within their Rust
integer types — round-trip exactly through `Header::encode` and
`Packet::decode`, the identifier's length being passed as `dest_id_len` for
Short headers. Long headers do not round-trip before `set_payload_length`
patches the length placeholder (see the counterexample). -/
theorem decode_encode_roundtrip :
    (∀ (id : ConnectionId) (pn : PacketNumber) (kp : Bool),
      (id.bytes.length = 0 ∨ id.bytes.length = 4 ∨ id.bytes.length = 18) →
      pn.val < 2 ^ pn.width →
      Packet.decode (Header.encode (.Short id pn kp)) id.bytes.length =
        .ok ⟨.Short id pn kp, Header.encode (.Short id pn kp), []⟩ []) ∧
    (∀ (ty : Nat) (sid did : ConnectionId) (dlen : Nat),
      ty < 128 →
      (sid.bytes.length = 0 ∨ sid.bytes.length = 4 ∨ sid.bytes.length = 18) →
      (did.bytes.length = 0 ∨ did.bytes.length = 4 ∨ did.bytes.length = 18) →
      Packet.decode (Header.encode (.VersionNegotiate ty sid did)) dlen =
        .ok ⟨.VersionNegotiate ty sid did,
          Header.encode (.VersionNegotiate ty sid did), []⟩ []) :=
  ⟨fun id pn kp hlen hval =>
    short_roundtrip id pn kp
      (by rcases hlen with h | h | h <;> simp [MAX_CID_SIZE, h]) hval,
   fun ty sid did dlen hty hsl hdl => vn_roundtrip ty sid did hty hsl hdl dlen⟩

/-- Witness for C1: a Short header with a 4-byte identifier, 16-bit number
300 and the key-phase bit set (the spec's worked example, id length drawn
from the claim's set). -/
theorem decode_encode_roundtrip_witness :
    Packet.decode (Header.encode (.Short ⟨[1, 2, 3, 4]⟩ (.U16 300) true)) 4 =
      .ok ⟨.Short ⟨[1, 2, 3, 4]⟩ (.U16 300) true,
        Header.encode (.Short ⟨[1, 2, 3, 4]⟩ (.U16 300) true), []⟩ [] :=
  decode_encode_roundtrip.1 ⟨[1, 2, 3, 4]⟩ (.U16 300) true (by simp) (by decide)

/-- Is this the Long variant (the only one with a wire length field)? -/
def Header.isLongVariant : Header → Bool
  | .Long .. => true
  | _ => false

/-- `decodeLong` never performs an out-of-bounds access. -/
lemma decodeLong_ne_panic (packet : List Nat) (ty : Nat) (r1 : List Nat) :
    decodeLong packet ty r1 ≠ .panic := by
  intro h
  unfold decodeLong at h
  dsimp only [] at h
  repeat' split at h
  all_goals simp [finishDecode] at h

/-- `decodeShort` never performs an out-of-bounds access when the supplied
`dest_id_len` is within the staging capacity. -/
lemma decodeShort_ne_panic (packet : List Nat) (ty : Nat) (r1 : List Nat)
    (dlen : Nat) (h : dlen ≤ MAX_CID_SIZE) :
    decodeShort packet ty r1 dlen ≠ .panic := by
  intro hp
  simp only [decodeShort, MAX_CID_SIZE] at hp
  repeat' split at hp
  all_goals simp [finishDecode] at hp
  simp [MAX_CID_SIZE] at h
  omega

/-- `Packet::decode` never performs an out-of-bounds access when
`dest_id_len ≤ MAX_CID_SIZE`. -/
lemma decode_ne_panic (packet : List Nat) (dlen : Nat)
    (h : dlen ≤ MAX_CID_SIZE) : Packet.decode packet dlen ≠ .panic := by
  cases packet with
  | nil => simp [Packet.decode, readByte]
  | cons b r =>
    simp only [Packet.decode, readByte]
    split
    · exact decodeLong_ne_panic _ _ _
    · exact decodeShort_ne_panic _ _ _ _ h

/-- Every successful decode is a `finishDecode` split with in-bounds header
and payload regions; short and version-negotiation headers take the whole
remainder as payload. -/
lemma decode_ok_shape (packet : List Nat) (dlen : Nat) (p : Packet)
    (rest : List Nat) (h : Packet.decode packet dlen = .ok p rest) :
    ∃ hl pl, hl ≤ packet.length ∧ hl + pl ≤ packet.length ∧
      p.header_data = packet.take hl ∧ p.payload = (packet.drop hl).take pl ∧
      rest = packet.drop (hl + pl) ∧
      (p.header.isLongVariant = false → pl = packet.length - hl) := by
  cases packet with
  | nil => simp [Packet.decode, readByte] at h
  | cons b r =>
    simp only [Packet.decode, readByte] at h
    split at h
    · unfold decodeLong at h
      dsimp only [] at h
      repeat' split at h
      all_goals simp only [finishDecode, DecodeResult.ok.injEq,
        reduceCtorEq] at h
      all_goals obtain ⟨hX, hr⟩ := h
      all_goals subst hX
      all_goals subst hr
      all_goals refine ⟨_, _, by omega, by omega, rfl, rfl, rfl, ?_⟩
      all_goals first
        | exact fun _ => rfl
        | (intro hf; simp [Header.isLongVariant] at hf)
    · unfold decodeShort at h
      dsimp only [] at h
      repeat' split at h
      all_goals simp only [finishDecode, DecodeResult.ok.injEq,
        reduceCtorEq] at h
      all_goals obtain ⟨hX, hr⟩ := h
      all_goals subst hX
      all_goals subst hr
      all_goals exact ⟨_, _, by omega, by omega, rfl, rfl, rfl, fun _ => rfl⟩

/-- A successful decode splits the datagram exactly: header bytes, payload
and remainder concatenate back to the input. -/
lemma decode_ok_concat (packet : List Nat) (dlen : Nat) (p : Packet)
    (rest : List Nat) (h : Packet.decode packet dlen = .ok p rest) :
    p.header_data ++ (p.payload ++ rest) = packet := by
  obtain ⟨hl, pl, h1, h2, hd, hp, hr, _⟩ := decode_ok_shape _ _ _ _ h
  subst hr
  rw [hd, hp]
  have hdd : packet.drop (hl + pl) = (packet.drop hl).drop pl := by
    rw [List.drop_drop]
  rw [hdd, List.take_append_drop, List.take_append_drop]

/-- **C7 (counterexample).** With `dest_id_len = 19 > MAX_CID_SIZE` and a
20-byte short-header datagram — shorter than the 21 bytes its shape needs —
`Packet::decode` does not return `InvalidHeader`: it slices the 18-byte
`cid_stage` array out of bounds. -/
theorem decode_short_oob :
    Packet.decode (48 :: List.replicate 19 0) 19 = DecodeResult.panic := by
  decide

/-- `readU16` fails exactly on buffers with fewer than two bytes. -/
lemma readU16_eq_none (l : List Nat) (h : l.length < 2) : readU16 l = none := by
  rcases l with _ | ⟨a, _ | ⟨b, t⟩⟩
  · rfl
  · rfl
  · simp only [List.length_cons] at h
    omega

/-- `readU32` fails exactly on buffers with fewer than four bytes. -/
lemma readU32_eq_none (l : List Nat) (h : l.length < 4) : readU32 l = none := by
  rcases l with _ | ⟨a, _ | ⟨b, _ | ⟨c, _ | ⟨d, t⟩⟩⟩⟩
  · rfl
  · rfl
  · rfl
  · rfl
  · simp only [List.length_cons] at h
    omega

/-- **C7 (amended).** Provided the caller respects the unchecked precondition
`dest_id_len ≤ MAX_CID_SIZE`: `Packet::decode` never performs an
out-of-bounds access for any input bytes; every successful decode reads
exactly within the buffer (header, payload and remainder concatenate back to
the datagram); and every buffer shorter than what its header shape requires
returns the `InvalidHeader` error the source names at that point — empty
input, a short-form buffer with fewer than `dest_id_len` id bytes or a
truncated packet number (and unrecognized short type bits), a long-form
buffer truncated in the fixed version-and-nibble fields, in the connection
ids, in the length varint or the 4-byte packet number, or declaring a payload
longer than the bytes that remain. -/
theorem decode_safety :
    (∀ (packet : List Nat) (dlen : Nat), dlen ≤ MAX_CID_SIZE →
      Packet.decode packet dlen ≠ .panic) ∧
    (∀ (packet : List Nat) (dlen : Nat) (p : Packet) (rest : List Nat),
      dlen ≤ MAX_CID_SIZE → Packet.decode packet dlen = .ok p rest →
      p.header_data ++ (p.payload ++ rest) = packet) ∧
    (∀ dlen : Nat, Packet.decode [] dlen =
      .err (.InvalidHeader "unexpected end of packet")) ∧
    (∀ (b : Nat) (r : List Nat) (dlen : Nat), ¬ 128 ≤ b → r.length < dlen →
      Packet.decode (b :: r) dlen =
        .err (.InvalidHeader "destination connection ID longer than packet")) ∧
    (∀ (b : Nat) (r : List Nat) (dlen : Nat), ¬ 128 ≤ b → dlen ≤ r.length →
      dlen ≤ MAX_CID_SIZE →
      (b % 4 = 0 → r.length < dlen + 1 →
        Packet.decode (b :: r) dlen =
          .err (.InvalidHeader "unexpected end of packet")) ∧
      (b % 4 = 1 → r.length < dlen + 2 →
        Packet.decode (b :: r) dlen =
          .err (.InvalidHeader "unexpected end of packet")) ∧
      (b % 4 = 2 → r.length < dlen + 4 →
        Packet.decode (b :: r) dlen =
          .err (.InvalidHeader "unexpected end of packet")) ∧
      (b % 4 = 3 →
        Packet.decode (b :: r) dlen =
          .err (.InvalidHeader "unknown packet type"))) ∧
    (∀ (b : Nat) (r : List Nat) (dlen : Nat), 128 ≤ b → r.length < 5 →
      Packet.decode (b :: r) dlen =
        .err (.InvalidHeader "unexpected end of packet")) ∧
    (∀ (ty v cil : Nat) (rest : List Nat) (dlen : Nat), ty < 128 →
      v < 2 ^ 32 →
      rest.length < (if 0 < cil / 16 then cil / 16 + 3 else cil / 16) +
        (if 0 < cil % 16 then cil % 16 + 3 else cil % 16) →
      Packet.decode ((128 + ty) :: (be32 v ++ cil :: rest)) dlen =
        .err (.InvalidHeader "connection IDs longer than packet")) ∧
    (∀ (ty nibD nibS : Nat) (did sid tail : List Nat) (dlen : Nat),
      ty < 128 → nibD < 16 → nibS < 16 →
      did.length = (if 0 < nibD then nibD + 3 else nibD) →
      sid.length = (if 0 < nibS then nibS + 3 else nibS) →
      (getVar tail = none →
        Packet.decode ((128 + ty) :: (be32 VERSION ++ (16 * nibD + nibS) ::
          (did ++ (sid ++ tail)))) dlen =
          .err (.InvalidHeader "unexpected end of packet")) ∧
      (∀ (len : Nat) (r6 : List Nat), getVar tail = some (len, r6) →
        readU32 r6 = none →
        Packet.decode ((128 + ty) :: (be32 VERSION ++ (16 * nibD + nibS) ::
          (did ++ (sid ++ tail)))) dlen =
          .err (.InvalidHeader "unexpected end of packet")) ∧
      (∀ (len number : Nat) (r6 r7 : List Nat),
        getVar tail = some (len, r6) → readU32 r6 = some (number, r7) →
        ((128 + ty) :: (be32 VERSION ++ (16 * nibD + nibS) ::
          (did ++ (sid ++ tail)))).length <
          ((128 + ty) :: (be32 VERSION ++ (16 * nibD + nibS) ::
            (did ++ (sid ++ tail)))).length - r7.length + len →
        Packet.decode ((128 + ty) :: (be32 VERSION ++ (16 * nibD + nibS) ::
          (did ++ (sid ++ tail)))) dlen =
          .err (.InvalidHeader "payload longer than packet"))) := by
  refine ⟨fun packet dlen h => decode_ne_panic _ _ h,
    fun packet dlen p rest _ hp => decode_ok_concat _ _ _ _ hp,
    fun dlen => by simp [Packet.decode, readByte], ?_, ?_, ?_, ?_, ?_⟩
  · intro b r dlen hb hlt
    rw [decode_cons_short _ _ _ hb]
    simp only [decodeShort]
    rw [if_pos hlt]
  · intro b r dlen hb hge hle
    have hbb : b % 128 = b := by omega
    refine ⟨?_, ?_, ?_, ?_⟩
    · intro h4 hlen
      rw [decode_cons_short _ _ _ hb]
      simp only [decodeShort]
      rw [if_neg (Nat.not_lt.2 hge), if_neg (Nat.not_lt.2 hle), hbb, h4]
      have hnil : r.drop dlen = [] := List.drop_eq_nil_of_le (by omega)
      rw [hnil]
      rfl
    · intro h4 hlen
      rw [decode_cons_short _ _ _ hb]
      simp only [decodeShort]
      rw [if_neg (Nat.not_lt.2 hge), if_neg (Nat.not_lt.2 hle), hbb, h4]
      have hrd : readU16 (r.drop dlen) = none := by
        refine readU16_eq_none _ ?_
        simp only [List.length_drop]
        omega
      rw [hrd]
    · intro h4 hlen
      rw [decode_cons_short _ _ _ hb]
      simp only [decodeShort]
      rw [if_neg (Nat.not_lt.2 hge), if_neg (Nat.not_lt.2 hle), hbb, h4]
      have hrd : readU32 (r.drop dlen) = none := by
        refine readU32_eq_none _ ?_
        simp only [List.length_drop]
        omega
      rw [hrd]
    · intro h4
      rw [decode_cons_short _ _ _ hb]
      simp only [decodeShort]
      rw [if_neg (Nat.not_lt.2 hge), if_neg (Nat.not_lt.2 hle), hbb, h4]
  · intro b r dlen hb hr
    rw [decode_cons_long _ _ _ hb]
    rcases r with _ | ⟨a, _ | ⟨c, _ | ⟨d, _ | ⟨e, r'⟩⟩⟩⟩
    · simp [decodeLong, readU32]
    · simp [decodeLong, readU32]
    · simp [decodeLong, readU32]
    · simp [decodeLong, readU32]
    · have : r' = [] := by
        simp only [List.length_cons] at hr
        exact List.eq_nil_of_length_eq_zero (by omega)
      subst this
      simp [decodeLong, readU32, readByte]
  · intro ty v cil rest dlen hty hv hlen
    rw [decode_cons_long _ _ _ (by omega),
      show (128 + ty) % 128 = ty from by omega]
    simp only [decodeLong]
    rw [readU32_be32 v hv]
    simp only [readByte]
    rw [if_pos hlen]
  · intro ty nibD nibS did sid tail dlen hty hnD hnS hdid hsid
    have hv0 : VERSION ≠ 0 := by decide
    refine ⟨?_, ?_, ?_⟩
    · intro hgv
      rw [decode_cons_long _ _ _ (by omega),
        show (128 + ty) % 128 = ty from by omega,
        decodeLong_skeleton _ _ _ _ _ _ _ _ (by decide) hnD hnS hdid hsid,
        if_neg hv0, if_pos rfl, hgv]
    · intro len r6 hgv hrd
      rw [decode_cons_long _ _ _ (by omega),
        show (128 + ty) % 128 = ty from by omega,
        decodeLong_skeleton _ _ _ _ _ _ _ _ (by decide) hnD hnS hdid hsid,
        if_neg hv0, if_pos rfl, hgv]
      dsimp only []
      rw [hrd]
    · intro len number r6 r7 hgv hrd hcond
      rw [decode_cons_long _ _ _ (by omega),
        show (128 + ty) % 128 = ty from by omega,
        decodeLong_skeleton _ _ _ _ _ _ _ _ (by decide) hnD hnS hdid hsid,
        if_neg hv0, if_pos rfl, hgv]
      dsimp only []
      rw [hrd]
      dsimp only []
      rw [if_pos hcond]

/-- Witness for C7: a short-form buffer whose 2-byte packet number is
truncated, and a three-byte truncated long header. -/
theorem decode_safety_witness :
    Packet.decode [49, 1, 2, 3, 4] 4 =
      .err (.InvalidHeader "unexpected end of packet") ∧
    Packet.decode [148, 1, 2] 0 =
      .err (.InvalidHeader "unexpected end of packet") :=
  ⟨(decode_safety.2.2.2.2.1 49 [1, 2, 3, 4] 4 (by norm_num) (by norm_num)
      (by decide)).2.1 (by norm_num) (by norm_num),
   decode_safety.2.2.2.2.2.1 148 [1, 2] 0 (by norm_num) (by norm_num)⟩

/-- **C10.** With `dest_id_len ≤ MAX_CID_SIZE` the short-header path never
leaves the staging array's bounds (`decode` never panics, and returns the
`InvalidHeader` truncation error when fewer than `dest_id_len` bytes remain
after the type byte); the bound is a precondition the function never checks —
at `dest_id_len = 19` with 19 bytes available it goes out of bounds. -/
theorem decode_dest_id_len_contract :
    (∀ packet dlen, dlen ≤ MAX_CID_SIZE → Packet.decode packet dlen ≠ .panic) ∧
    (∀ b r dlen, ¬ 128 ≤ b → r.length < dlen →
      Packet.decode (b :: r) dlen =
        .err (.InvalidHeader "destination connection ID longer than packet")) ∧
    Packet.decode (48 :: List.replicate 19 0) 19 = .panic := by
  refine ⟨fun packet dlen h => decode_ne_panic _ _ h, ?_, by decide⟩
  intro b r dlen hb hlt
  rw [decode_cons_short _ _ _ hb]
  unfold decodeShort
  rw [if_pos hlt]

/-- Witness for C10: a one-byte short-header datagram with `dest_id_len = 4`. -/
theorem decode_dest_id_len_contract_witness :
    Packet.decode [48] 4 =
      .err (.InvalidHeader "destination connection ID longer than packet") :=
  decode_dest_id_len_contract.2.1 48 [] 4 (by norm_num) (by norm_num)

/-- `finishDecode` on a datagram split as known header prefix plus body. -/
lemma finishDecode_headPartLen (pre body : List Nat) (len : Nat) (h : Header) :
    finishDecode (pre ++ body) ((pre ++ body).length - body.length) len h =
      .ok ⟨h, pre, body.take len⟩ (body.drop len) := by
  have h1 : (pre ++ body).length - body.length = pre.length := by simp
  have h2 : (pre ++ body).drop (pre.length + len) = body.drop len :=
    List.drop_append len
  simp only [finishDecode, h1, List.take_left, List.drop_left, h2]

/-- `finishDecode` when the parsed header consumed everything but `tail` and
the payload is the whole remainder. -/
lemma finishDecode_wholeTail (pre tail : List Nat) (h : Header) :
    finishDecode (pre ++ tail) ((pre ++ tail).length - tail.length)
      ((pre ++ tail).length - ((pre ++ tail).length - tail.length)) h =
      .ok ⟨h, pre, tail⟩ [] := by
  have h2 : (pre ++ tail).length - ((pre ++ tail).length - tail.length)
      = tail.length := by simp
  rw [h2, finishDecode_headPartLen, List.take_length,
    List.drop_eq_nil_of_le (le_refl _)]

/-- **C5.** For every buffer that parses as a long header — top bit set on the
first byte, a 32-bit version `v`, the nibble byte, and connection ids of the
lengths the nibbles dictate: if `v = 0` the decoder returns a
VersionNegotiate header consuming no length or number fields (the header
region is exactly the six fixed bytes plus the two ids, everything after them
is payload); if `v` is nonzero and differs from the negotiated `VERSION`, it
returns `UnsupportedVersion` carrying precisely the parsed source and
destination ids. -/
theorem decode_long_version_dispatch (ty v nibD nibS : Nat)
    (did sid tail : List Nat) (dlen : Nat) (hty : ty < 128) (hv : v < 2 ^ 32)
    (hnD : nibD < 16) (hnS : nibS < 16)
    (hdid : did.length = if 0 < nibD then nibD + 3 else nibD)
    (hsid : sid.length = if 0 < nibS then nibS + 3 else nibS) :
    (v = 0 →
      Packet.decode ((128 + ty) :: (be32 v ++ (16 * nibD + nibS) ::
          (did ++ (sid ++ tail)))) dlen =
        .ok ⟨.VersionNegotiate ty ⟨sid⟩ ⟨did⟩,
          (128 + ty) :: (be32 v ++ (16 * nibD + nibS) :: (did ++ sid)),
          tail⟩ []) ∧
    (v ≠ 0 → v ≠ VERSION →
      Packet.decode ((128 + ty) :: (be32 v ++ (16 * nibD + nibS) ::
          (did ++ (sid ++ tail)))) dlen =
        .err (.UnsupportedVersion ⟨sid⟩ ⟨did⟩)) := by
  constructor
  · rintro rfl
    rw [decode_cons_long _ _ _ (by omega),
      show (128 + ty) % 128 = ty from by omega,
      decodeLong_skeleton _ _ _ _ _ _ _ _ hv hnD hnS hdid hsid, if_pos rfl]
    have hsplit : (128 + ty) :: (be32 0 ++ (16 * nibD + nibS) ::
        (did ++ (sid ++ tail)))
        = ((128 + ty) :: (be32 0 ++ (16 * nibD + nibS) :: (did ++ sid)))
          ++ tail := by
      simp
    rw [hsplit]
    exact finishDecode_wholeTail _ _ _
  · intro h0 hV
    rw [decode_cons_long _ _ _ (by omega),
      show (128 + ty) % 128 = ty from by omega,
      decodeLong_skeleton _ _ _ _ _ _ _ _ hv hnD hnS hdid hsid, if_neg h0,
      if_neg hV]

/-- Witness for C5: an 11-byte long-form datagram with a 4-byte destination
id, first with version 0, then with the unknown version 5. -/
theorem decode_long_version_dispatch_witness :
    Packet.decode [130, 0, 0, 0, 0, 16, 5, 6, 7, 8, 9] 0 =
      .ok ⟨.VersionNegotiate 2 ⟨[]⟩ ⟨[5, 6, 7, 8]⟩,
        [130, 0, 0, 0, 0, 16, 5, 6, 7, 8], [9]⟩ [] ∧
    Packet.decode [130, 0, 0, 0, 5, 16, 5, 6, 7, 8, 9] 0 =
      .err (.UnsupportedVersion ⟨[]⟩ ⟨[5, 6, 7, 8]⟩) :=
  ⟨(decode_long_version_dispatch 2 0 1 0 [5, 6, 7, 8] [] [9] 0 (by norm_num)
      (by norm_num) (by norm_num) (by norm_num) (by norm_num) (by norm_num)).1
      rfl,
   (decode_long_version_dispatch 2 5 1 0 [5, 6, 7, 8] [] [9] 0 (by norm_num)
      (by norm_num) (by norm_num) (by norm_num) (by norm_num) (by norm_num)).2
      (by norm_num) (by decide)⟩

/-- `getVar` reads exactly the two bytes written with the 2-byte class tag. -/
lemma getVar_two_byte (len : Nat) (h : len < 2 ^ 14) (r : List Nat) :
    getVar ((64 + len / 256) :: (len % 256) :: r) = some (len, r) := by
  have h1 : (64 + len / 256) / 64 = 1 := by omega
  simp only [getVar, h1]
  norm_num
  omega

/-- **C8.** For every successful decode (with an in-range `dest_id_len`) the
returned pieces concatenate back to the datagram, `header_data` is exactly
the consumed prefix, and short/version-negotiation packets take the whole
remainder as payload with an empty left-over; for long headers the payload
length is exactly the value read from the wire length field, decoding fails
with `InvalidHeader` when that value exceeds the bytes remaining after the
header, and otherwise the left-over is the rest of the datagram (coalesced
packets, see the witness). -/
theorem decode_framing_split :
    (∀ (dgram : List Nat) (dlen : Nat) (p : Packet) (rest : List Nat),
      dlen ≤ MAX_CID_SIZE → Packet.decode dgram dlen = .ok p rest →
      p.header_data ++ (p.payload ++ rest) = dgram ∧
      p.header_data = dgram.take p.header_data.length ∧
      (p.header.isLongVariant = false →
        rest = [] ∧ p.payload = dgram.drop p.header_data.length)) ∧
    (∀ (ty nibD nibS len number : Nat) (did sid body : List Nat) (dlen : Nat),
      ty < 128 → nibD < 16 → nibS < 16 →
      did.length = (if 0 < nibD then nibD + 3 else nibD) →
      sid.length = (if 0 < nibS then nibS + 3 else nibS) →
      len < 2 ^ 14 → number < 2 ^ 32 →
      (len ≤ body.length →
        Packet.decode ((128 + ty) :: (be32 VERSION ++ (16 * nibD + nibS) ::
            (did ++ (sid ++ ((64 + len / 256) :: (len % 256) ::
              (be32 number ++ body)))))) dlen =
          .ok ⟨.Long ty ⟨sid⟩ ⟨did⟩ number,
            (128 + ty) :: (be32 VERSION ++ (16 * nibD + nibS) ::
              (did ++ (sid ++ ((64 + len / 256) :: (len % 256) ::
                be32 number)))),
            body.take len⟩ (body.drop len)) ∧
      (body.length < len →
        Packet.decode ((128 + ty) :: (be32 VERSION ++ (16 * nibD + nibS) ::
            (did ++ (sid ++ ((64 + len / 256) :: (len % 256) ::
              (be32 number ++ body)))))) dlen =
          .err (.InvalidHeader "payload longer than packet"))) := by
  constructor
  · intro dgram dlen p rest hdlen hdec
    obtain ⟨hl, pl, h1, h2, hd, hp, hr, hshort⟩ := decode_ok_shape _ _ _ _ hdec
    have hlen : p.header_data.length = hl := by
      rw [hd, List.length_take]
      omega
    refine ⟨decode_ok_concat _ _ _ _ hdec, by rw [hlen, hd], ?_⟩
    intro hfalse
    obtain h3 := hshort hfalse
    constructor
    · rw [hr, h3]
      exact List.drop_eq_nil_of_le (by omega)
    · rw [hp, hlen, h3]
      exact List.take_of_length_le (by simp)
  · intro ty nibD nibS len number did sid body dlen hty hnD hnS hdid hsid
      hlen hnum
    have hv0 : VERSION ≠ 0 := by decide
    have hstep : Packet.decode ((128 + ty) :: (be32 VERSION ++
        (16 * nibD + nibS) :: (did ++ (sid ++ ((64 + len / 256) ::
          (len % 256) :: (be32 number ++ body)))))) dlen =
        (if ((128 + ty) :: (be32 VERSION ++ (16 * nibD + nibS) ::
            (did ++ (sid ++ ((64 + len / 256) :: (len % 256) ::
              (be32 number ++ body)))))).length <
            ((128 + ty) :: (be32 VERSION ++ (16 * nibD + nibS) ::
              (did ++ (sid ++ ((64 + len / 256) :: (len % 256) ::
                (be32 number ++ body)))))).length - body.length + len then
          .err (.InvalidHeader "payload longer than packet")
        else
          finishDecode ((128 + ty) :: (be32 VERSION ++ (16 * nibD + nibS) ::
            (did ++ (sid ++ ((64 + len / 256) :: (len % 256) ::
              (be32 number ++ body))))))
            (((128 + ty) :: (be32 VERSION ++ (16 * nibD + nibS) ::
              (did ++ (sid ++ ((64 + len / 256) :: (len % 256) ::
                (be32 number ++ body)))))).length - body.length) len
            (.Long ty ⟨sid⟩ ⟨did⟩ number)) := by
      rw [decode_cons_long _ _ _ (by omega),
        show (128 + ty) % 128 = ty from by omega,
        decodeLong_skeleton _ _ _ _ _ _ _ _ (by decide) hnD hnS hdid hsid,
        if_neg hv0, if_pos rfl, getVar_two_byte len hlen]
      dsimp only []
      rw [readU32_be32 number hnum]
    have hsplit : (128 + ty) :: (be32 VERSION ++ (16 * nibD + nibS) ::
        (did ++ (sid ++ ((64 + len / 256) :: (len % 256) ::
          (be32 number ++ body)))))
        = ((128 + ty) :: (be32 VERSION ++ (16 * nibD + nibS) ::
            (did ++ (sid ++ ((64 + len / 256) :: (len % 256) ::
              be32 number))))) ++ body := by
      simp
    constructor
    · intro hfits
      rw [hstep, hsplit, if_neg (by simp only [List.length_append]; omega)]
      exact finishDecode_headPartLen _ _ _ _
    · intro hover
      have hcond : ((128 + ty) :: (be32 VERSION ++ (16 * nibD + nibS) ::
          (did ++ (sid ++ ((64 + len / 256) :: (len % 256) ::
            (be32 number ++ body)))))).length <
          ((128 + ty) :: (be32 VERSION ++ (16 * nibD + nibS) ::
            (did ++ (sid ++ ((64 + len / 256) :: (len % 256) ::
              (be32 number ++ body)))))).length - body.length + len := by
        simp only [List.length_cons, List.length_append]
        omega
      rw [hstep, if_pos hcond]

/-- Witness for C8: a datagram holding a patched Long packet (3-byte payload)
followed by a coalesced Short packet; the first decode returns the Long
packet plus a nonempty remainder, and decoding that remainder returns the
Short packet with nothing left. -/
theorem decode_framing_split_witness :
    Packet.decode
        [253, 255, 0, 0, 11, 16, 1, 2, 3, 4, 64, 3, 0, 0, 0, 7,
          170, 170, 170, 48, 99] 0 =
      .ok ⟨.Long 125 ⟨[]⟩ ⟨[1, 2, 3, 4]⟩ 7,
        [253, 255, 0, 0, 11, 16, 1, 2, 3, 4, 64, 3, 0, 0, 0, 7],
        [170, 170, 170]⟩ [48, 99] ∧
    ([48, 99] : List Nat) ≠ [] ∧
    Packet.decode [48, 99] 0 =
      .ok ⟨.Short ⟨[]⟩ (.U8 99) false, [48, 99], []⟩ [] := by
  refine ⟨?_, by decide, by decide⟩
  exact (decode_framing_split.2 125 1 0 3 7 [1, 2, 3, 4] []
    [170, 170, 170, 48, 99] 0 (by norm_num) (by norm_num) (by norm_num)
    (by norm_num) (by norm_num) (by norm_num) (by norm_num)).1 (by norm_num)

/-- The sixteen characters the lowercase hex format can emit. -/
def lowercaseHexAlphabet : List Char := "0123456789abcdef".toList

/-- Each hex digit of a nibble is drawn from the lowercase alphabet. -/
lemma hexDigit_mem (n : Nat) (h : n < 16) :
    hexDigit n ∈ lowercaseHexAlphabet := by
  have hall : ∀ u : Fin 16, hexDigit (u : Nat) ∈ lowercaseHexAlphabet := by
    decide
  exact hall ⟨n, h⟩

/-- The hex fold writes two characters per byte. -/
lemma hexFold_length (l : List Nat) :
    (l.foldr (fun b acc => byteHex b ++ acc) []).length = 2 * l.length := by
  induction l with
  | nil => simp
  | cons b t ih =>
    simp only [List.foldr_cons, List.length_append, ih]
    simp only [byteHex, List.length_cons, List.length_nil]
    omega

/-- The pair of characters at offset `2 * i` of the hex fold is the hex image
of the `i`-th byte. -/
lemma hexFold_pair (l : List Nat) (i : Nat) (h : i < l.length) :
    ((l.foldr (fun b acc => byteHex b ++ acc) []).drop (2 * i)).take 2
      = byteHex (l.getD i 0) := by
  induction l generalizing i with
  | nil => simp at h
  | cons b t ih =>
    cases i with
    | zero => simp [byteHex]
    | succ j =>
      have hj : j < t.length := by simpa using h
      rw [show 2 * (j + 1) = 2 * j + 1 + 1 from by omega]
      simp only [List.foldr_cons, byteHex, List.cons_append, List.nil_append,
        List.drop_succ_cons, List.getD_cons_succ]
      exact ih j hj

/-- Every character of the hex fold comes from some byte's hex pair. -/
lemma hexFold_mem (l : List Nat) (ch : Char)
    (h : ch ∈ l.foldr (fun b acc => byteHex b ++ acc) []) :
    ∃ b ∈ l, ch ∈ byteHex b := by
  induction l with
  | nil => simp at h
  | cons b t ih =>
    simp only [List.foldr_cons, List.mem_append] at h
    rcases h with h | h
    · exact ⟨b, by simp, h⟩
    · obtain ⟨b', hb', hch⟩ := ih h
      exact ⟨b', by simp [hb'], hch⟩

/-- **C9.** `ConnectionId::random` yields exactly `len` bytes for every
`len ≤ MAX_CID_SIZE`; two identifiers with equal content are equal and hash
identically; and the `Display` output has exactly `2 × len` characters, the
pair at offset `2·i` being the two lowercase hex digits of byte `i`, with no
separators and every character drawn from `0-9a-f`. -/
theorem connectionId_spec :
    (∀ (rng : Nat → Nat) (len : Nat), len ≤ MAX_CID_SIZE →
      ∃ c, ConnectionId.random rng len = some c ∧ c.bytes.length = len) ∧
    (∀ a b : ConnectionId, a.bytes = b.bytes → a = b ∧ hash a = hash b) ∧
    (∀ c : ConnectionId, c.display.length = 2 * c.bytes.length ∧
      ∀ i, i < c.bytes.length →
        (c.display.drop (2 * i)).take 2 = byteHex (c.bytes.getD i 0)) ∧
    (∀ c : ConnectionId, (∀ b ∈ c.bytes, b < 256) →
      ∀ ch ∈ c.display, ch ∈ lowercaseHexAlphabet) := by
  refine ⟨?_, ?_, ?_, ?_⟩
  · intro rng len h
    exact ⟨⟨(List.range len).map rng⟩, by rw [ConnectionId.random, if_pos h],
      by simp⟩
  · rintro ⟨a⟩ ⟨b⟩ h
    simp only at h
    subst h
    exact ⟨rfl, rfl⟩
  · intro c
    exact ⟨hexFold_length c.bytes, fun i h => hexFold_pair c.bytes i h⟩
  · intro c hb ch hch
    obtain ⟨b, hbl, hchb⟩ := hexFold_mem c.bytes ch hch
    have hblt : b < 256 := hb b hbl
    simp only [byteHex, List.mem_cons, List.mem_singleton,
      List.not_mem_nil, or_false] at hchb
    rcases hchb with rfl | rfl
    · exact hexDigit_mem _ (by omega)
    · exact hexDigit_mem _ (by omega)

/-- Witness for C9: a 4-byte random identifier from a concrete byte stream. -/
theorem connectionId_spec_witness :
    ∃ c, ConnectionId.random (fun i => i + 10) 4 = some c ∧
      c.bytes.length = 4 :=
  connectionId_spec.1 (fun i => i + 10) 4 (by decide)

end Quinn
